import Mathlib

/-!
Shallow embedding of the `edifact_parser` Rust crate (src/lib.rs) and proofs
about its tokenizer/serializer pair, document assembly, line grouping and
builder.  Strings are modelled by Lean `String` at the API boundary and by
`List Char` inside the character-level state machine (Rust iterates `chars()`;
all inputs of interest are ASCII, so Rust's byte-based `len()` agrees with the
character count).  Rust's `PyResult` is modelled by `Except EdifactError`;
the source constructs no error value in any of the embedded functions, so
every embedded fallible function ends in `.ok` exactly as the source ends in
`Ok(...)`.
-/

namespace Edifact

/-- Error payload of the crate (`struct EdifactError { message: String }`). -/
structure EdifactError where
  message : String
deriving DecidableEq

/-- The six delimiter characters (`struct Delimiters`). -/
structure Delimiters where
  component : Char
  data : Char
  decimal : Char
  escape : Char
  segment : Char
  reserved : Char
deriving DecidableEq

/-- `impl Default for Delimiters`.  `Char.ofNat 39` is the apostrophe
(segment terminator). -/
def Delimiters.default : Delimiters :=
  { component := ':', data := '+', decimal := '.', escape := '?',
    segment := Char.ofNat 39, reserved := '*' }

/-- `struct Segment { tag, elements, position }`. -/
structure Segment where
  tag : String
  elements : List (List String)
  position : Nat
deriving DecidableEq

/-- Escaping of one component in `Segment::to_edifact`: each character equal
to the data, component, decimal, segment or reserved delimiter is prefixed
with the escape delimiter. -/
def escapeComp (d : Delimiters) : List Char → List Char
  | [] => []
  | c :: rest =>
    if c = d.data ∨ c = d.component ∨ c = d.decimal ∨ c = d.segment ∨ c = d.reserved
    then d.escape :: c :: escapeComp d rest
    else c :: escapeComp d rest

/-- The component loop of `Segment::to_edifact`: components of one element,
escaped, joined by the component delimiter (the source pushes the component
delimiter before every component except the first). -/
def joinComps (d : Delimiters) : List (List Char) → List Char
  | [] => []
  | [c] => escapeComp d c
  | c :: rest => escapeComp d c ++ d.component :: joinComps d rest

/-- The element loop of `Segment::to_edifact`: each element is preceded by the
data delimiter. -/
def joinEls (d : Delimiters) : List (List (List Char)) → List Char
  | [] => []
  | el :: rest => d.data :: joinComps d el ++ joinEls d rest

/-- `Segment::to_edifact` at the character-list level: tag, then the elements,
then the segment terminator. -/
def serializeCore (d : Delimiters) (tag : List Char) (els : List (List (List Char))) : List Char :=
  tag ++ joinEls d els ++ [d.segment]

/-- `Segment::to_edifact`. -/
def Segment.to_edifact (s : Segment) (d : Delimiters) : String :=
  String.mk (serializeCore d s.tag.data (s.elements.map (fun el => el.map String.data)))

/-- Tag extraction in `Parser::parse_segment`: consume characters up to (and
including) the first data delimiter; the prefix is the tag, the remainder is
handed to the element loop.  If no data delimiter occurs the whole input is
the tag. -/
def parseTag (dc : Char) : List Char → List Char × List Char
  | [] => ([], [])
  | c :: rest =>
    if c = dc then ([], rest)
    else
      let tr := parseTag dc rest
      (c :: tr.1, tr.2)

/-- The element/component loop of `Parser::parse_segment`.

`flag` renders the source's inner peek-ahead loop (`while chars.peek() ==
Some(&data) { elements.push(Vec::new()); chars.next(); }`) that runs right
after the data-delimiter arm: `flag = true` means that loop is active, and
while the next character is again the data delimiter it is consumed and an
empty element is pushed, exactly as in the source; any other character ends
the peek loop and is handled by the ordinary `match` arms (the arms are in
source order: escaped state, escape, component, data, segment terminator,
ordinary character, end of input).  The two `if`/`else` shapes of the data
and terminator arms are rendered with the equivalent
`if _ = [] ∧ _ = []` tests (De Morgan of the source's
`!comp.is_empty() || !el.is_empty()`). -/
def parseBody (d : Delimiters) :
    List Char → Bool → Bool → List (List Char) → List Char →
    List (List (List Char)) → List (List (List Char))
  | [], _, _, curEl, curComp, els =>
    -- `None` arm: close a pending component / element like a terminator.
    let el2 := if curComp = [] then curEl else curEl ++ [curComp]
    if el2 = [] then els else els ++ [el2]
  | c :: rest, flag, esc, curEl, curComp, els =>
    if flag ∧ c = d.data then
      -- the peek-ahead loop: consecutive data delimiter, push empty element
      parseBody d rest true esc curEl curComp (els ++ [[]])
    else if esc then
      parseBody d rest false false curEl (curComp ++ [c]) els
    else if c = d.escape then
      parseBody d rest false true curEl curComp els
    else if c = d.component then
      -- the source pushes the component in both branches of its `if`
      parseBody d rest false false (curEl ++ [curComp]) [] els
    else if c = d.data then
      let els2 := if curComp = [] ∧ curEl = [] then els ++ [[]]
                  else els ++ [curEl ++ [curComp]]
      parseBody d rest true false [] [] els2
    else if c = d.segment then
      if curComp = [] ∧ curEl = [] then els
      else if curComp = [] then els ++ [curEl] else els ++ [curEl ++ [curComp]]
    else
      parseBody d rest false false curEl (curComp ++ [c]) els

/-- `Parser::parse_segment` at the character-list level: tag then body. -/
def parseSegmentCore (d : Delimiters) (input : List Char) :
    List Char × List (List (List Char)) :=
  let tr := parseTag d.data input
  (tr.1, parseBody d tr.2 false false [] [] [])

/-- `struct Parser { delimiters: Delimiters }`. -/
structure Parser where
  delimiters : Delimiters
deriving DecidableEq

/-- `Parser::new()`. -/
def Parser.new : Parser := ⟨Delimiters.default⟩

/-- `Parser::parse_segment`.  The source returns `Ok(Segment::new(..))` on
every path. -/
def Parser.parse_segment (p : Parser) (segment_str : String) (position : Nat) :
    Except EdifactError Segment :=
  let tr := parseSegmentCore p.delimiters segment_str.data
  .ok (Segment.mk (String.mk tr.1) (tr.2.map (fun el => el.map String.mk)) position)

/-- `a` starts with `pre` (Rust `str::starts_with`). -/
def leadsWith : List Char → List Char → Bool
  | [], _ => true
  | _ :: _, [] => false
  | a :: as, b :: bs => a == b && leadsWith as bs

/-- `Parser::set_delimiters`: when the line has at least 9 characters and
starts with "UNA", offsets 3..8 become component, data, decimal, escape,
reserved, segment; otherwise the delimiters are silently left unchanged.
Returns `Ok(())` in both cases (modelled as the updated parser). -/
def Parser.set_delimiters (p : Parser) (una_segment : String) :
    Except EdifactError Parser :=
  if 9 ≤ una_segment.data.length ∧ leadsWith ("UNA".data) una_segment.data then
    .ok ⟨{ component := una_segment.data.getD 3 ' ',
           data := una_segment.data.getD 4 ' ',
           decimal := una_segment.data.getD 5 ' ',
           escape := una_segment.data.getD 6 ' ',
           reserved := una_segment.data.getD 7 ' ',
           segment := una_segment.data.getD 8 ' ' }⟩
  else
    .ok p

/-- `struct Order { segments, interchange_header, message_header, parser }`. -/
structure Order where
  segments : List Segment
  interchange_header : Option Segment
  message_header : Option Segment
  parser : Parser
deriving DecidableEq

/-- `Order::new()`. -/
def Order.new : Order :=
  { segments := [], interchange_header := none, message_header := none,
    parser := Parser.new }

/-- Tag routing inside the `Order::from_edifact` loop: `UNB` overwrites the
interchange-header slot, `UNH` overwrites the message-header slot, everything
else is appended to the body. -/
def routeSegment (o : Order) (segment : Segment) : Order :=
  if segment.tag = "UNB" then { o with interchange_header := some segment }
  else if segment.tag = "UNH" then { o with message_header := some segment }
  else { o with segments := o.segments ++ [segment] }

/-- `String::lines` splitting step: split at every newline character (the
inputs of interest contain no carriage returns). -/
def splitOnNl : List Char → List (List Char)
  | [] => [[]]
  | '\n' :: rest => [] :: splitOnNl rest
  | c :: rest =>
    match splitOnNl rest with
    | [] => [[c]]
    | l :: ls => (c :: l) :: ls

/-- Rust `str::lines`: like splitting on the newline character, except that a
final line ending produces no trailing empty line (and the empty string has
no lines at all). -/
def rustLines (s : List Char) : List (List Char) :=
  let parts := splitOnNl s
  if parts.getLast? = some [] then parts.dropLast else parts

/-- The `for line in content.lines()` loop of `Order::from_edifact`: blank
lines (`line.trim().is_empty()`, i.e. all-whitespace) and `UNA` lines are
skipped without consuming a position; every other line is tokenized at the
next sequential position and routed by tag. -/
def processLines : List (List Char) → Order → Nat → Except EdifactError Order
  | [], o, _ => .ok o
  | line :: rest, o, position =>
    if line.all Char.isWhitespace || leadsWith ("UNA".data) line then
      processLines rest o position
    else
      match o.parser.parse_segment (String.mk line) position with
      | .ok segment => processLines rest (routeSegment o segment) (position + 1)
      | .error e => .error e

/-- `Order::from_edifact`: resolve delimiters from a leading `UNA` line if
present (`content.lines().next().unwrap()` — safe because the content starts
with "UNA" and is hence non-empty), then run the line loop. -/
def Order.from_edifact (content : String) : Except EdifactError Order :=
  let o := Order.new
  if leadsWith ("UNA".data) content.data then
    match o.parser.set_delimiters (String.mk ((rustLines content.data).headD [])) with
    | .ok p => processLines (rustLines content.data) { o with parser := p } 0
    | .error e => .error e
  else
    processLines (rustLines content.data) o 0

/-- `Order::add_segment`. -/
def Order.add_segment (o : Order) (segment : Segment) : Order :=
  { o with segments := o.segments ++ [segment] }

/-- `struct OrderLine`: one `LIN` segment plus the optional attached
description/quantity/amount/price/reference segments. -/
structure OrderLine where
  line_segment : Segment
  description : Option Segment
  quantity : Option Segment
  amount : Option Segment
  price : Option Segment
  reference : Option Segment
deriving DecidableEq

/-- `OrderLine::new`. -/
def OrderLine.new (line_segment : Segment) : OrderLine :=
  { line_segment := line_segment, description := none, quantity := none,
    amount := none, price := none, reference := none }

/-- `OrderLine::add_segment`: route by tag into the matching slot
(overwriting it); other tags are ignored. -/
def OrderLine.add_segment (l : OrderLine) (segment : Segment) : OrderLine :=
  if segment.tag = "IMD" then { l with description := some segment }
  else if segment.tag = "QTY" then { l with quantity := some segment }
  else if segment.tag = "MOA" then { l with amount := some segment }
  else if segment.tag = "PRI" then { l with price := some segment }
  else if segment.tag = "RFF" then { l with reference := some segment }
  else l

/-- The scan loop of `Order::get_order_lines`: `LIN` flushes the open group
and opens a new one; `IMD`/`QTY`/`MOA`/`PRI`/`RFF` attach to the open group
if any; other tags are ignored; the last open group is flushed at the end. -/
def orderLinesLoop : List Segment → Option OrderLine → List OrderLine → List OrderLine
  | [], cur, acc =>
    match cur with
    | some line => acc ++ [line]
    | none => acc
  | segment :: rest, cur, acc =>
    if segment.tag = "LIN" then
      orderLinesLoop rest (some (OrderLine.new segment))
        (match cur with | some line => acc ++ [line] | none => acc)
    else if segment.tag = "IMD" ∨ segment.tag = "QTY" ∨ segment.tag = "MOA"
            ∨ segment.tag = "PRI" ∨ segment.tag = "RFF" then
      orderLinesLoop rest (cur.map (fun line => line.add_segment segment)) acc
    else
      orderLinesLoop rest cur acc

/-- `Order::get_order_lines` (the source wraps the result in `Ok`
unconditionally; the list itself is modelled). -/
def Order.get_order_lines (o : Order) : List OrderLine :=
  orderLinesLoop o.segments none []

/-- `Order::to_edifact` (the source wraps the result in `Ok`
unconditionally): optional `UNA` line when the delimiters are non-default,
then the header slots, then the body segments, each followed by a newline. -/
def Order.to_edifact (o : Order) : String :=
  let d := o.parser.delimiters
  let una := if d = Delimiters.default then "" else
    String.mk (['U', 'N', 'A', d.component, d.data, d.decimal, d.escape,
                d.reserved, d.segment] ++ [ '\n' ])
  let ih := match o.interchange_header with
    | some header => header.to_edifact d ++ "\n"
    | none => ""
  let mh := match o.message_header with
    | some header => header.to_edifact d ++ "\n"
    | none => ""
  una ++ ih ++ mh ++ String.join (o.segments.map (fun s => s.to_edifact d ++ "\n"))

/-- `struct OrderBuilder { order: Order }`; each `with_*`/`add_*` method
mutates the working order and returns the builder. -/
structure OrderBuilder where
  order : Order
deriving DecidableEq

/-- `OrderBuilder::new()`. -/
def OrderBuilder.new : OrderBuilder := ⟨Order.new⟩

/-- `OrderBuilder::with_interchange_header`. -/
def OrderBuilder.with_interchange_header (b : OrderBuilder)
    (sender recipient date control_ref : String) : OrderBuilder :=
  let elements := [["UNOA", "4"], [sender], [recipient], [date], [control_ref],
                   ["ORDERS"]]
  ⟨{ b.order with interchange_header := some (Segment.mk "UNB" elements 0) }⟩

/-- `OrderBuilder::with_message_header`. -/
def OrderBuilder.with_message_header (b : OrderBuilder)
    (message_ref message_type : String) : OrderBuilder :=
  let elements := [[message_ref], [message_type, "D", "01B", "UN"]]
  ⟨{ b.order with message_header := some (Segment.mk "UNH" elements 1) }⟩

/-- `OrderBuilder::with_bgm`. -/
def OrderBuilder.with_bgm (b : OrderBuilder)
    (message_name doc_number message_function : String) : OrderBuilder :=
  let elements := [[message_name], [doc_number], [message_function]]
  ⟨b.order.add_segment (Segment.mk "BGM" elements b.order.segments.length)⟩

/-- `OrderBuilder::add_order_line`: appends the fixed `LIN`/`QTY`/`PRI`
triplet. -/
def OrderBuilder.add_order_line (b : OrderBuilder)
    (line_number item_number quantity price : String) : OrderBuilder :=
  let o1 := b.order.add_segment
    (Segment.mk "LIN" [[line_number], [], [item_number, "BP"]] b.order.segments.length)
  let o2 := o1.add_segment (Segment.mk "QTY" [["21"], [quantity]] o1.segments.length)
  let o3 := o2.add_segment (Segment.mk "PRI" [["AAA"], [price]] o2.segments.length)
  ⟨o3⟩

/-- `OrderBuilder::build`: a clone of the working order. -/
def OrderBuilder.build (b : OrderBuilder) : Order := b.order

/-- `needle` occurs as a contiguous substring of the second argument. -/
def occursIn : List Char → List Char → Bool
  | needle, [] => leadsWith needle []
  | needle, c :: rest => leadsWith needle (c :: rest) || occursIn needle rest

/-! ### Single steps of the tokenizer state machine -/

theorem step_escaped (d : Delimiters) (c : Char) (rest curComp : List Char)
    (curEl : List (List Char)) (els : List (List (List Char))) :
    parseBody d (c :: rest) false true curEl curComp els
      = parseBody d rest false false curEl (curComp ++ [c]) els := by
  simp [parseBody]

theorem step_escape (d : Delimiters) (rest curComp : List Char)
    (curEl : List (List Char)) (els : List (List (List Char))) :
    parseBody d (d.escape :: rest) false false curEl curComp els
      = parseBody d rest false true curEl curComp els := by
  simp [parseBody]

theorem step_plain (d : Delimiters) (c : Char) (rest curComp : List Char)
    (curEl : List (List Char)) (els : List (List (List Char)))
    (h1 : c ≠ d.escape) (h2 : c ≠ d.component) (h3 : c ≠ d.data) (h4 : c ≠ d.segment) :
    parseBody d (c :: rest) false false curEl curComp els
      = parseBody d rest false false curEl (curComp ++ [c]) els := by
  simp [parseBody, h1, h2, h3, h4]

theorem step_comp (d : Delimiters) (rest curComp : List Char)
    (curEl : List (List Char)) (els : List (List (List Char)))
    (h : d.component ≠ d.escape) :
    parseBody d (d.component :: rest) false false curEl curComp els
      = parseBody d rest false false (curEl ++ [curComp]) [] els := by
  simp [parseBody, h]

theorem step_data (d : Delimiters) (rest curComp : List Char)
    (curEl : List (List Char)) (els : List (List (List Char)))
    (h1 : d.data ≠ d.escape) (h2 : d.data ≠ d.component) :
    parseBody d (d.data :: rest) false false curEl curComp els
      = parseBody d rest true false [] []
          (if curComp = [] ∧ curEl = [] then els ++ [[]] else els ++ [curEl ++ [curComp]]) := by
  simp [parseBody, h1, h2]

theorem step_term (d : Delimiters) (rest curComp : List Char)
    (curEl : List (List Char)) (els : List (List (List Char)))
    (h1 : d.segment ≠ d.escape) (h2 : d.segment ≠ d.component) (h3 : d.segment ≠ d.data) :
    parseBody d (d.segment :: rest) false false curEl curComp els
      = (if curComp = [] ∧ curEl = [] then els
         else if curComp = [] then els ++ [curEl] else els ++ [curEl ++ [curComp]]) := by
  simp [parseBody, h1, h2, h3]

theorem step_flag_data (d : Delimiters) (rest curComp : List Char) (esc : Bool)
    (curEl : List (List Char)) (els : List (List (List Char))) :
    parseBody d (d.data :: rest) true esc curEl curComp els
      = parseBody d rest true esc curEl curComp (els ++ [[]]) := by
  simp [parseBody]

theorem flag_off (d : Delimiters) (c : Char) (rest curComp : List Char) (esc : Bool)
    (curEl : List (List Char)) (els : List (List (List Char))) (h : c ≠ d.data) :
    parseBody d (c :: rest) true esc curEl curComp els
      = parseBody d (c :: rest) false esc curEl curComp els := by
  simp [parseBody, h]

/-! ### Round-trip of one escaped component -/

/-- Parsing the serialized (escaped) form of a component that does not
contain the escape character appends exactly that component to the current
component accumulator. -/
theorem parse_escComp (c : List Char)
    (hc : Delimiters.default.escape ∉ c) :
    ∀ (t curComp : List Char) (curEl : List (List Char)) (els : List (List (List Char))),
    parseBody Delimiters.default (escapeComp Delimiters.default c ++ t) false false curEl curComp els
      = parseBody Delimiters.default t false false curEl (curComp ++ c) els := by
  induction c with
  | nil => intro t curComp curEl els; simp [escapeComp]
  | cons x c' ih =>
    intro t curComp curEl els
    have hx : x ≠ Delimiters.default.escape := by
      intro h; exact hc (h ▸ List.mem_cons_self x c')
    have hc' : Delimiters.default.escape ∉ c' := fun h => hc (List.mem_cons_of_mem _ h)
    by_cases hs : x = Delimiters.default.data ∨ x = Delimiters.default.component
        ∨ x = Delimiters.default.decimal ∨ x = Delimiters.default.segment
        ∨ x = Delimiters.default.reserved
    · rw [show escapeComp Delimiters.default (x :: c')
            = Delimiters.default.escape :: x :: escapeComp Delimiters.default c' from by
          simp [escapeComp, hs]]
      rw [List.cons_append, List.cons_append, step_escape,
          step_escaped, ih hc', List.append_assoc]
      rfl
    · push_neg at hs
      obtain ⟨h1, h2, h3, h4, h5⟩ := hs
      rw [show escapeComp Delimiters.default (x :: c')
            = x :: escapeComp Delimiters.default c' from by
          simp [escapeComp, h1, h2, h3, h4, h5]]
      rw [List.cons_append, step_plain _ _ _ _ _ _ hx h2 h1 h4, ih hc',
          List.append_assoc]
      rfl

/-- Parsing the serialized component list of one non-empty element moves its
components into the accumulators: all but the last into the current element,
the last into the current component. -/
theorem parse_joinComps (e : List (List Char)) :
    e ≠ [] → (∀ c ∈ e, Delimiters.default.escape ∉ c) →
    ∀ (t : List Char) (curEl : List (List Char)) (els : List (List (List Char))),
    parseBody Delimiters.default (joinComps Delimiters.default e ++ t) false false curEl [] els
      = parseBody Delimiters.default t false false (curEl ++ e.dropLast) (e.getLastD []) els := by
  induction e with
  | nil => intro he; exact absurd rfl he
  | cons c e' ih =>
    intro _ hc t curEl els
    cases e' with
    | nil =>
      rw [show joinComps Delimiters.default [c] = escapeComp Delimiters.default c from rfl,
          parse_escComp c (hc c (List.mem_cons_self c [])) t [] curEl els]
      simp
    | cons c2 r =>
      rw [show joinComps Delimiters.default (c :: c2 :: r)
            = escapeComp Delimiters.default c
              ++ Delimiters.default.component :: joinComps Delimiters.default (c2 :: r) from rfl,
          List.append_assoc, List.cons_append,
          parse_escComp c (hc c (List.mem_cons_self c _)),
          step_comp _ _ _ _ _ (by decide),
          ih (by simp) (fun x hx => hc x (List.mem_cons_of_mem _ hx))]
      simp [List.append_assoc]

/-- The serialized form of a non-empty element other than `[[]]` starts with
a character distinct from the data delimiter (so the peek-ahead loop stops
in front of it). -/
theorem escapeComp_head (x : Char) (xs : List Char) :
    ∃ hd tl, escapeComp Delimiters.default (x :: xs) = hd :: tl
      ∧ hd ≠ Delimiters.default.data := by
  by_cases hs : x = Delimiters.default.data ∨ x = Delimiters.default.component
      ∨ x = Delimiters.default.decimal ∨ x = Delimiters.default.segment
      ∨ x = Delimiters.default.reserved
  · exact ⟨Delimiters.default.escape, x :: escapeComp Delimiters.default xs,
      by simp [escapeComp, hs], by decide⟩
  · refine ⟨x, escapeComp Delimiters.default xs, by simp [escapeComp, hs], ?_⟩
    push_neg at hs
    exact hs.1

theorem joinComps_head (e : List (List Char)) (he : e ≠ []) (hne : e ≠ [[]]) :
    ∃ hd tl, joinComps Delimiters.default e = hd :: tl
      ∧ hd ≠ Delimiters.default.data := by
  cases e with
  | nil => exact absurd rfl he
  | cons c e' =>
    cases e' with
    | nil =>
      cases c with
      | nil => exact absurd rfl hne
      | cons x xs =>
        obtain ⟨hd, tl, hh, hd_ne⟩ := escapeComp_head x xs
        exact ⟨hd, tl, by rw [show joinComps Delimiters.default [x :: xs]
          = escapeComp Delimiters.default (x :: xs) from rfl, hh], hd_ne⟩
    | cons c2 r =>
      cases c with
      | nil =>
        refine ⟨Delimiters.default.component,
          joinComps Delimiters.default (c2 :: r), ?_, by decide⟩
        rw [show joinComps Delimiters.default ([] :: c2 :: r)
          = escapeComp Delimiters.default []
            ++ Delimiters.default.component :: joinComps Delimiters.default (c2 :: r) from rfl]
        simp [escapeComp]
      | cons x xs =>
        obtain ⟨hd, tl, hh, hd_ne⟩ := escapeComp_head x xs
        refine ⟨hd, tl ++ Delimiters.default.component :: joinComps Delimiters.default (c2 :: r), ?_, hd_ne⟩
        rw [show joinComps Delimiters.default ((x :: xs) :: c2 :: r)
          = escapeComp Delimiters.default (x :: xs)
            ++ Delimiters.default.component :: joinComps Delimiters.default (c2 :: r) from rfl,
          hh, List.cons_append]

/-- An element whose serialized form parses back to itself in any position:
not the single-empty-component element, and no component contains the escape
character. -/
def GoodEl (e : List (List Char)) : Prop :=
  e ≠ [[]] ∧ ∀ c ∈ e, Delimiters.default.escape ∉ c

/-- The last element (when there is one) survives the closing branch: it is
non-empty and its last component is non-empty. -/
def LastClosable (ES : List (List (List Char))) : Prop :=
  ∀ l, ES.getLast? = some l → l ≠ [] ∧ l.getLastD [] ≠ []

/-- The unread input immediately after the data delimiter that opens the
first element of `ES` (or, for `ES = []`, just the terminator). -/
def tailInput : List (List (List Char)) → List Char
  | [] => [Delimiters.default.segment]
  | e :: r => joinComps Delimiters.default e ++ joinEls Delimiters.default r
      ++ [Delimiters.default.segment]

theorem dropLast_append_getLastD {α : Type} (e : List α) (he : e ≠ []) (d : α) :
    e.dropLast ++ [e.getLastD d] = e := by
  induction e generalizing d with
  | nil => exact absurd rfl he
  | cons x e' ih =>
    cases e' with
    | nil => rfl
    | cons y r => simpa using ih (by simp) x

theorem not_both_empty (e : List (List Char)) (he : e ≠ []) (hne : e ≠ [[]]) :
    ¬(e.getLastD [] = [] ∧ e.dropLast = []) := by
  cases e with
  | nil => exact absurd rfl he
  | cons c e' =>
    cases e' with
    | nil =>
      rintro ⟨h1, _⟩
      exact hne (by simpa using h1)
    | cons y r => rintro ⟨_, h2⟩; simp at h2

/-- Main induction: with the peek-ahead flag raised and clean accumulators,
parsing the remaining serialized elements appends exactly those elements. -/
theorem parse_tail (ES : List (List (List Char))) :
    (∀ e ∈ ES, GoodEl e) → LastClosable ES →
    ∀ els, parseBody Delimiters.default (tailInput ES) true false [] [] els = els ++ ES := by
  induction ES with
  | nil =>
    intro _ _ els
    rw [show tailInput [] = [Delimiters.default.segment] from rfl,
        flag_off _ _ _ _ _ _ _ (by decide),
        step_term _ _ _ _ _ (by decide) (by decide) (by decide)]
    simp
  | cons e r ih =>
    intro hg hl els
    by_cases heq : e = []
    · subst heq
      cases r with
      | nil =>
        exact absurd ((hl [] (by simp)).1) (by simp)
      | cons e2 r' =>
        rw [show tailInput ([] :: e2 :: r')
              = Delimiters.default.data :: (joinComps Delimiters.default e2
                  ++ joinEls Delimiters.default r' ++ [Delimiters.default.segment]) from by
            simp [tailInput, joinComps, joinEls],
            step_flag_data,
            show joinComps Delimiters.default e2 ++ joinEls Delimiters.default r'
                ++ [Delimiters.default.segment] = tailInput (e2 :: r') from rfl,
            ih (fun x hx => hg x (List.mem_cons_of_mem _ hx))
               (by intro l h; exact hl l (by rw [List.getLast?_cons_cons]; exact h))]
        simp
    · have hne : e ≠ [[]] := (hg e (List.mem_cons_self ..)).1
      have hesc : ∀ c ∈ e, Delimiters.default.escape ∉ c :=
        (hg e (List.mem_cons_self ..)).2
      obtain ⟨hd, tl, hjc, hdne⟩ := joinComps_head e heq hne
      rw [show tailInput (e :: r)
            = joinComps Delimiters.default e
              ++ (joinEls Delimiters.default r ++ [Delimiters.default.segment]) from by
          simp [tailInput, List.append_assoc],
          hjc, List.cons_append, flag_off _ _ _ _ _ _ _ hdne, ← List.cons_append, ← hjc,
          parse_joinComps e heq hesc]
      cases r with
      | nil =>
        rw [show joinEls Delimiters.default [] = [] from rfl, List.nil_append,
            step_term _ _ _ _ _ (by decide) (by decide) (by decide)]
        have hcl := hl e (by simp)
        rw [if_neg (by rintro ⟨h1, _⟩; exact hcl.2 h1), if_neg hcl.2,
            List.nil_append, dropLast_append_getLastD e heq]
      | cons e2 r' =>
        rw [show joinEls Delimiters.default (e2 :: r') ++ [Delimiters.default.segment]
              = Delimiters.default.data :: (joinComps Delimiters.default e2
                  ++ joinEls Delimiters.default r' ++ [Delimiters.default.segment]) from by
            simp [joinEls, List.append_assoc],
            step_data _ _ _ _ _ (by decide) (by decide),
            if_neg (by rw [List.nil_append]; exact not_both_empty e heq hne),
            show joinComps Delimiters.default e2 ++ joinEls Delimiters.default r'
                ++ [Delimiters.default.segment] = tailInput (e2 :: r') from rfl,
            ih (fun x hx => hg x (List.mem_cons_of_mem _ hx))
               (by intro l h; exact hl l (by rw [List.getLast?_cons_cons]; exact h)),
            List.nil_append, dropLast_append_getLastD e heq, List.append_assoc,
            List.singleton_append]

theorem parseTag_append (dc : Char) (tag rest : List Char) (h : dc ∉ tag) :
    parseTag dc (tag ++ dc :: rest) = (tag, rest) := by
  induction tag with
  | nil => simp [parseTag]
  | cons c cs ih =>
    have hc : ¬(c = dc) := by rintro rfl; exact h (List.mem_cons_self ..)
    have h' : dc ∉ cs := fun m => h (List.mem_cons_of_mem _ m)
    simp [parseTag, hc, ih h']

/-- Character-list-level round trip: tokenizing the serialized form of a
well-shaped tag/element structure returns exactly that structure. -/
theorem roundtrip_core (tg : List Char) (lels : List (List (List Char)))
    (g1 : Delimiters.default.data ∉ tg)
    (g2 : ∀ e ∈ lels, GoodEl e) (g3 : lels ≠ []) (g5 : LastClosable lels) :
    parseSegmentCore Delimiters.default (serializeCore Delimiters.default tg lels)
      = (tg, lels) := by
  cases lels with
  | nil => exact absurd rfl g3
  | cons e ES =>
    have hser : serializeCore Delimiters.default tg (e :: ES)
        = tg ++ Delimiters.default.data :: (joinComps Delimiters.default e
            ++ joinEls Delimiters.default ES ++ [Delimiters.default.segment]) := by
      simp [serializeCore, joinEls, List.append_assoc]
    simp only [parseSegmentCore, hser, parseTag_append _ _ _ g1]
    refine Prod.ext rfl ?_
    show parseBody Delimiters.default (joinComps Delimiters.default e
        ++ joinEls Delimiters.default ES ++ [Delimiters.default.segment])
        false false [] [] [] = e :: ES
    by_cases heq : e = []
    · subst heq
      cases ES with
      | nil => exact absurd ((g5 [] (by simp)).1) (by simp)
      | cons e2 r' =>
        rw [show joinComps Delimiters.default ([] : List (List Char)) = [] from rfl,
            List.nil_append,
            show joinEls Delimiters.default (e2 :: r') ++ [Delimiters.default.segment]
              = Delimiters.default.data :: (joinComps Delimiters.default e2
                  ++ joinEls Delimiters.default r' ++ [Delimiters.default.segment]) from by
              simp [joinEls, List.append_assoc],
            step_data _ _ _ _ _ (by decide) (by decide), if_pos ⟨rfl, rfl⟩,
            show joinComps Delimiters.default e2 ++ joinEls Delimiters.default r'
                ++ [Delimiters.default.segment] = tailInput (e2 :: r') from rfl,
            parse_tail (e2 :: r') (fun x hx => g2 x (List.mem_cons_of_mem _ hx))
              (by intro l h; exact g5 l (by rw [List.getLast?_cons_cons]; exact h))]
        rfl
    · have hesc : ∀ c ∈ e, Delimiters.default.escape ∉ c :=
        (g2 e (List.mem_cons_self ..)).2
      have hne : e ≠ [[]] := (g2 e (List.mem_cons_self ..)).1
      rw [List.append_assoc, parse_joinComps e heq hesc]
      cases ES with
      | nil =>
        rw [show joinEls Delimiters.default [] = [] from rfl, List.nil_append,
            step_term _ _ _ _ _ (by decide) (by decide) (by decide)]
        have hcl := g5 e (by simp)
        rw [if_neg (by rintro ⟨h1, _⟩; exact hcl.2 h1), if_neg hcl.2]
        have hda := dropLast_append_getLastD e heq ([] : List Char)
        simp only [List.nil_append, hda]
      | cons e2 r' =>
        rw [show joinEls Delimiters.default (e2 :: r') ++ [Delimiters.default.segment]
              = Delimiters.default.data :: (joinComps Delimiters.default e2
                  ++ joinEls Delimiters.default r' ++ [Delimiters.default.segment]) from by
            simp [joinEls, List.append_assoc],
            step_data _ _ _ _ _ (by decide) (by decide),
            if_neg (by rw [List.nil_append]; exact not_both_empty e heq hne),
            show joinComps Delimiters.default e2 ++ joinEls Delimiters.default r'
                ++ [Delimiters.default.segment] = tailInput (e2 :: r') from rfl,
            parse_tail (e2 :: r') (fun x hx => g2 x (List.mem_cons_of_mem _ hx))
              (by intro l h; exact g5 l (by rw [List.getLast?_cons_cons]; exact h))]
        have hda := dropLast_append_getLastD e heq ([] : List Char)
        simp only [List.nil_append, hda, List.singleton_append]

/-! ### Lifting the round trip to `Segment` -/

theorem string_mk_data (s : String) : String.mk s.data = s := rfl

theorem data_mk (l : List Char) : (String.mk l).data = l := rfl

theorem data_eq_nil {s : String} (h : s.data = []) : s = "" := by
  cases s with
  | mk l => cases h; rfl

theorem getLastD_map_data (x : List String) (hx : x ≠ []) :
    (x.map String.data).getLastD [] = (x.getLastD "").data := by
  induction x with
  | nil => exact absurd rfl hx
  | cons y r ih =>
    cases r with
    | nil => rfl
    | cons z r' => simpa [List.getLastD_cons] using ih (by simp)

theorem getLastD_map_els (E : List (List String)) (hE : E ≠ []) :
    (E.map (fun el => el.map String.data)).getLastD []
      = (E.getLastD []).map String.data := by
  induction E with
  | nil => exact absurd rfl hE
  | cons y r ih =>
    cases r with
    | nil => rfl
    | cons z r' => simpa [List.getLastD_cons] using ih (by simp)

theorem lastClosable_of (ES : List (List (List Char)))
    (h : ES.getLastD [] ≠ [] ∧ (ES.getLastD []).getLastD [] ≠ []) :
    LastClosable ES := by
  intro l hl
  have : ES.getLastD [] = l := by
    rw [List.getLastD_eq_getLast?, hl]; rfl
  rw [← this]
  exact h

/-- Segment-level round trip under the default delimiters: serializing and
re-parsing a segment whose tag avoids the data delimiter, whose components
avoid the escape character, and whose element list is non-empty, free of
`[""]` elements and closable at the end, reproduces tag and elements. -/
theorem roundtrip_segment (T : String) (E : List (List String)) (pos pos2 : Nat)
    (h1 : Delimiters.default.data ∉ T.data)
    (h2 : ∀ el ∈ E, ∀ c ∈ el, Delimiters.default.escape ∉ c.data)
    (h3 : E ≠ [])
    (h4 : ∀ el ∈ E, el ≠ [""])
    (h5 : E.getLastD [] ≠ [] ∧ (E.getLastD []).getLastD "" ≠ "") :
    Parser.new.parse_segment ((Segment.mk T E pos).to_edifact Delimiters.default) pos2
      = .ok (Segment.mk T E pos2) := by
  have g2 : ∀ e ∈ E.map (fun el => el.map String.data), GoodEl e := by
    intro e he
    obtain ⟨el, hel, rfl⟩ := List.mem_map.1 he
    constructor
    · intro hcon
      rcases el with _ | ⟨c, el'⟩
      · simp at hcon
      · rcases el' with _ | ⟨c2, el''⟩
        · have : c.data = [] := by simpa using hcon
          exact h4 _ hel (by rw [data_eq_nil this])
        · simp at hcon
    · intro c hc
      obtain ⟨cs, hcs, rfl⟩ := List.mem_map.1 hc
      exact h2 el hel cs hcs
  have g3 : E.map (fun el => el.map String.data) ≠ [] := by
    simpa using h3
  have g5 : LastClosable (E.map (fun el => el.map String.data)) := by
    refine lastClosable_of _ ?_
    rw [getLastD_map_els E h3]
    constructor
    · simpa using h5.1
    · rw [getLastD_map_data _ h5.1]
      intro hcon
      exact h5.2 (data_eq_nil hcon)
  have hcore := roundtrip_core T.data (E.map (fun el => el.map String.data)) h1 g2 g3 g5
  simp only [Parser.parse_segment, Segment.to_edifact, Parser.new, data_mk]
  rw [hcore]
  have hid : (String.mk ∘ String.data) = id := funext string_mk_data
  simp [string_mk_data, List.map_map, hid]

/-! ### Specification of the document-assembly loop -/

/-- Left-biased choice on options (first value wins). -/
def optOr {α : Type} : Option α → Option α → Option α
  | some a, _ => some a
  | none, b => b

theorem optOr_none {α : Type} (a : Option α) : optOr a none = a := by
  cases a <;> rfl

theorem optOr_some {α : Type} (a : α) (b : Option α) : optOr (some a) b = some a := rfl

theorem optOr_assoc {α : Type} (a b c : Option α) :
    optOr (optOr a b) c = optOr a (optOr b c) := by
  cases a <;> rfl

theorem getLast?_cons_optOr {α : Type} (a : α) (l : List α) :
    (a :: l).getLast? = optOr l.getLast? (some a) := by
  cases l with
  | nil => rfl
  | cons b t => rw [List.getLast?_cons_cons, List.getLast?_cons]; rfl

/-- The segment value `Parser::parse_segment` produces (it always succeeds). -/
def segOf (p : Parser) (line : List Char) (position : Nat) : Segment :=
  let tr := parseSegmentCore p.delimiters line
  Segment.mk (String.mk tr.1) (tr.2.map (fun el => el.map String.mk)) position

theorem parse_segment_eq_segOf (p : Parser) (line : List Char) (position : Nat) :
    p.parse_segment (String.mk line) position = .ok (segOf p line position) := rfl

/-- The segments the `from_edifact` loop tokenizes, in line order, with their
sequential positions (blank and `UNA` lines skipped). -/
def segmentsOfLines (p : Parser) : List (List Char) → Nat → List Segment
  | [], _ => []
  | line :: rest, position =>
    if line.all Char.isWhitespace || leadsWith ("UNA".data) line then
      segmentsOfLines p rest position
    else
      segOf p line position :: segmentsOfLines p rest (position + 1)

theorem routeSegment_keepsDelims (o : Order) (s : Segment) :
    (routeSegment o s).parser = o.parser := by
  unfold routeSegment; split_ifs <;> rfl

/-- What the line loop computes: the body receives the non-header segments in
order, each header slot receives the last matching segment (if any), and the
parser is unchanged. -/
theorem processLines_spec (lines : List (List Char)) :
    ∀ (o : Order) (position : Nat),
    processLines lines o position = .ok
      { segments := o.segments ++ (segmentsOfLines o.parser lines position).filter
          (fun s => !(s.tag == "UNB" || s.tag == "UNH")),
        interchange_header := optOr ((segmentsOfLines o.parser lines position).filter
          (fun s => s.tag == "UNB")).getLast? o.interchange_header,
        message_header := optOr ((segmentsOfLines o.parser lines position).filter
          (fun s => s.tag == "UNH")).getLast? o.message_header,
        parser := o.parser } := by
  induction lines with
  | nil =>
    intro o position
    simp [processLines, segmentsOfLines, optOr]
  | cons line rest ih =>
    intro o position
    by_cases hskip : (line.all Char.isWhitespace || leadsWith ("UNA".data) line) = true
    · simp only [processLines, segmentsOfLines, hskip, if_true]
      exact ih o position
    · simp only [processLines, segmentsOfLines, hskip, if_false,
        Bool.false_eq_true, parse_segment_eq_segOf]
      rw [ih (routeSegment o (segOf o.parser line position)) (position + 1)]
      set seg := segOf o.parser line position with hsegdef
      rw [routeSegment_keepsDelims]
      by_cases hU : seg.tag = "UNB"
      · simp [routeSegment, hU, getLast?_cons_optOr, optOr_assoc, optOr_some,
          List.filter_cons]
      · by_cases hH : seg.tag = "UNH"
        · simp [routeSegment, hU, hH, getLast?_cons_optOr, optOr_assoc, optOr_some,
            List.filter_cons]
        · simp [routeSegment, hU, hH, getLast?_cons_optOr, optOr_assoc, optOr_some,
            List.filter_cons, List.append_assoc]

/-- The delimiters `from_edifact` resolves before scanning the lines:
`UNA`-override when the content starts with "UNA", defaults otherwise. -/
def resolvedParser (content : String) : Parser :=
  if leadsWith ("UNA".data) content.data then
    match Parser.new.set_delimiters (String.mk ((rustLines content.data).headD [])) with
    | .ok p => p
    | .error _ => Parser.new
  else Parser.new

theorem set_delimiters_ok (p : Parser) (una : String) :
    ∃ q, p.set_delimiters una = .ok q := by
  unfold Parser.set_delimiters
  split_ifs <;> exact ⟨_, rfl⟩

theorem from_edifact_eq (content : String) :
    Order.from_edifact content
      = processLines (rustLines content.data)
          { Order.new with parser := resolvedParser content } 0 := by
  unfold Order.from_edifact resolvedParser
  by_cases h : leadsWith ("UNA".data) content.data = true
  · obtain ⟨q, hq⟩ := set_delimiters_ok Order.new.parser
      (String.mk ((rustLines content.data).headD []))
    simp only [h, if_true]
    rw [show Parser.new = Order.new.parser from rfl, hq]
  · simp only [h, if_false, Bool.false_eq_true]
    rfl

/-! ### Specification of the line-grouping scan -/

theorem add_segment_line (l : OrderLine) (s : Segment) :
    (l.add_segment s).line_segment = l.line_segment := by
  unfold OrderLine.add_segment; split_ifs <;> rfl

/-- The groups the scan emits are exactly the `LIN` segments, in order: the
flushed accumulator, then the open group, then one group per remaining `LIN`
segment. -/
theorem orderLinesLoop_map (segs : List Segment) :
    ∀ (cur : Option OrderLine) (acc : List OrderLine),
    (orderLinesLoop segs cur acc).map OrderLine.line_segment
      = acc.map OrderLine.line_segment
        ++ cur.elim [] (fun l => [l.line_segment])
        ++ segs.filter (fun s => s.tag == "LIN") := by
  induction segs with
  | nil =>
    intro cur acc
    cases cur <;> simp [orderLinesLoop, Option.elim]
  | cons s rest ih =>
    intro cur acc
    by_cases hL : s.tag = "LIN"
    · cases cur with
      | none =>
        simp [orderLinesLoop, hL, ih, Option.elim, OrderLine.new, List.filter_cons]
      | some l =>
        simp [orderLinesLoop, hL, ih, Option.elim, OrderLine.new, List.filter_cons,
          List.append_assoc]
    · by_cases hA : s.tag = "IMD" ∨ s.tag = "QTY" ∨ s.tag = "MOA"
          ∨ s.tag = "PRI" ∨ s.tag = "RFF"
      · cases cur with
        | none => simp [orderLinesLoop, hL, hA, ih, Option.elim, List.filter_cons, hL]
        | some l =>
          simp [orderLinesLoop, hL, hA, ih, Option.elim, List.filter_cons,
            add_segment_line]
      · cases cur with
        | none => simp [orderLinesLoop, hL, hA, ih, Option.elim, List.filter_cons]
        | some l => simp [orderLinesLoop, hL, hA, ih, Option.elim, List.filter_cons]

/-! ### The claims -/

/-- C1, counterexample: on input "BGM+220+123456" (no segment terminator)
`parse_segment` does not fail with `IncompleteSegment` — it succeeds,
returning the segment with tag "BGM" and elements [["220"], ["123456"]]. -/
theorem c1_counterexample :
    Parser.new.parse_segment "BGM+220+123456" 0
      = .ok (Segment.mk "BGM" [["220"], ["123456"]] 0) := by rfl

/-- C1, amended: for every input string that contains no occurrence of the
segment-terminator delimiter, `parse_segment` succeeds, treating end of
input as an implicit terminator (it never produces an error). -/
theorem c1_amended (s : String) (pos : Nat)
    (h : Delimiters.default.segment ∉ s.data) :
    ∃ seg, Parser.new.parse_segment s pos = .ok seg :=
  ⟨_, rfl⟩

theorem c1_witness :
    Delimiters.default.segment ∉ "BGM+220+123456".data
      ∧ ∃ seg, Parser.new.parse_segment "BGM+220+123456" 0 = .ok seg :=
  ⟨by decide, c1_amended "BGM+220+123456" 0 (by decide)⟩

/-- C2, counterexample: on input "BGM+220?" (trailing escape delimiter)
`parse_segment` does not fail with `InvalidEscape` — it succeeds, dropping
the dangling escape. -/
theorem c2_counterexample :
    Parser.new.parse_segment "BGM+220?" 0
      = .ok (Segment.mk "BGM" [["220"]] 0) := by rfl

/-- C2, amended: for every input string whose last character is the escape
delimiter, `parse_segment` succeeds (the pending escape state is simply
abandoned at end of input); it never returns an error. -/
theorem c2_amended (s : String) (pos : Nat) :
    ∃ seg, Parser.new.parse_segment (s.push Delimiters.default.escape) pos = .ok seg :=
  ⟨_, rfl⟩

/-- C3, counterexample: `set_delimiters` on the 5-character UNA line "UNA:+"
does not fail with `MalformedUnaHeader` — it succeeds and silently keeps the
default delimiters. -/
theorem c3_counterexample :
    Parser.new.set_delimiters "UNA:+" = .ok Parser.new := by rfl

/-- C3, amended: for every line that starts with "UNA" but is shorter than 9
characters, `set_delimiters` silently keeps the current delimiters and
reports success (it does not fail). -/
theorem c3_amended (p : Parser) (una : String)
    (h1 : leadsWith ("UNA".data) una.data = true) (h2 : una.data.length < 9) :
    p.set_delimiters una = .ok p := by
  unfold Parser.set_delimiters
  rw [if_neg]
  rintro ⟨h9, _⟩
  omega

theorem c3_witness :
    leadsWith ("UNA".data) "UNA:+".data = true ∧ "UNA:+".data.length < 9
      ∧ Parser.new.set_delimiters "UNA:+" = .ok Parser.new :=
  ⟨by decide, by decide, c3_amended Parser.new "UNA:+" (by decide) (by decide)⟩

/-- C4, counterexample: the segment with tag "COM" and single component "?"
satisfies the claim's hypothesis (the component contains none of the data,
component, decimal, segment-terminator or reserved delimiters), yet
serializing and re-parsing yields the component "'" — the serializer does
not escape the escape character, so the round trip fails. -/
theorem c4_counterexample :
    (∀ x ∈ ("?" : String).data,
        x ≠ Delimiters.default.data ∧ x ≠ Delimiters.default.component
        ∧ x ≠ Delimiters.default.decimal ∧ x ≠ Delimiters.default.segment
        ∧ x ≠ Delimiters.default.reserved)
    ∧ Parser.new.parse_segment
        ((Segment.mk "COM" [["?"]] 0).to_edifact Delimiters.default) 0
        = .ok (Segment.mk "COM" [["'"]] 0)
    ∧ (Segment.mk "COM" [["'"]] 0) ≠ Segment.mk "COM" [["?"]] 0 :=
  ⟨by decide, by rfl, by decide⟩

/-- C4, amended: the round trip holds under the claim's condition once the
escape delimiter is also excluded from components, the tag is free of the
data delimiter, and the element list is non-empty, contains no `[""]`
element, and ends in an element whose last component is non-empty. -/
theorem c4_amended (T : String) (E : List (List String)) (pos pos2 : Nat)
    (h0 : ∀ el ∈ E, ∀ c ∈ el, ∀ x ∈ c.data,
        x ≠ Delimiters.default.data ∧ x ≠ Delimiters.default.component
        ∧ x ≠ Delimiters.default.decimal ∧ x ≠ Delimiters.default.segment
        ∧ x ≠ Delimiters.default.reserved)
    (hesc : ∀ el ∈ E, ∀ c ∈ el, Delimiters.default.escape ∉ c.data)
    (htag : Delimiters.default.data ∉ T.data)
    (hne : E ≠ [])
    (hsh : ∀ el ∈ E, el ≠ [""])
    (hlast : E.getLastD [] ≠ [] ∧ (E.getLastD []).getLastD "" ≠ "") :
    Parser.new.parse_segment ((Segment.mk T E pos).to_edifact Delimiters.default) pos2
      = .ok (Segment.mk T E pos2) :=
  roundtrip_segment T E pos pos2 htag hesc hne hsh hlast

theorem c4_witness :
    Parser.new.parse_segment
      ((Segment.mk "BGM" [["220"], ["123456"]] 0).to_edifact Delimiters.default) 7
      = .ok (Segment.mk "BGM" [["220"], ["123456"]] 7) :=
  c4_amended "BGM" [["220"], ["123456"]] 0 7 (by decide) (by decide) (by decide)
    (by decide) (by decide) (by decide)

/-- C5, counterexample: the component "?+" contains the data delimiter, one
of the five escapable roles, yet serializing a segment holding it and
re-parsing yields the component "?": the unescaped escape character eats the
escape that protects the "+". -/
theorem c5_counterexample :
    Delimiters.default.data ∈ ("?+" : String).data
    ∧ Parser.new.parse_segment
        ((Segment.mk "FTX" [["?+"]] 0).to_edifact Delimiters.default) 0
        = .ok (Segment.mk "FTX" [["?"]] 0)
    ∧ (Segment.mk "FTX" [["?"]] 0) ≠ Segment.mk "FTX" [["?+"]] 0 :=
  ⟨by decide, by rfl, by decide⟩

/-- C5, amended: for each of the five escapable delimiter roles, a component
containing that character — and not containing the escape character —
round-trips exactly through serialize→parse. -/
theorem c5_amended (r : Char) (c : String) (pos pos2 : Nat)
    (hrole : r = Delimiters.default.data ∨ r = Delimiters.default.component
      ∨ r = Delimiters.default.decimal ∨ r = Delimiters.default.segment
      ∨ r = Delimiters.default.reserved)
    (hmem : r ∈ c.data)
    (hesc : Delimiters.default.escape ∉ c.data) :
    Parser.new.parse_segment ((Segment.mk "FTX" [[c]] pos).to_edifact Delimiters.default) pos2
      = .ok (Segment.mk "FTX" [[c]] pos2) := by
  have hcne : c ≠ "" := by
    rintro rfl
    simp at hmem
  refine roundtrip_segment "FTX" [[c]] pos pos2 (by decide) ?_ (by simp) ?_ ?_
  · intro el hel cc hcc
    simp at hel
    subst hel
    simp at hcc
    subst hcc
    exact hesc
  · intro el hel
    simp at hel
    subst hel
    intro hcon
    exact hcne (by simpa using hcon)
  · exact ⟨by simp, by simpa using hcne⟩

theorem c5_witness :
    Parser.new.parse_segment
      ((Segment.mk "FTX" [["A+B"]] 0).to_edifact Delimiters.default) 0
      = .ok (Segment.mk "FTX" [["A+B"]] 0) :=
  c5_amended '+' "A+B" 0 0 (by decide) (by decide) (by decide)

/-- C6, counterexample: under default delimiters `parse_segment` applied to
"COM++TE'" yields elements `[[], ["TE"]]`: the empty element is the empty
component sequence, not the one-component sequence `[""]` the claim
states. -/
theorem c6_counterexample :
    Parser.new.parse_segment "COM++TE'" 0
      = .ok (Segment.mk "COM" [[], ["TE"]] 0)
    ∧ ([[], ["TE"]] : List (List String)) ≠ [[""], ["TE"]] :=
  ⟨by rfl, by decide⟩

/-- C6, amended: under default delimiters `parse_segment` applied to
"COM++TE'" returns tag "COM" and elements `[[], ["TE"]]` — the empty element
produced by consecutive data delimiters is the empty component sequence. -/
theorem c6_amended :
    Parser.new.parse_segment "COM++TE'" 0
      = .ok (Segment.mk "COM" [[], ["TE"]] 0) := by rfl

/-- C7, counterexample: the builder scenario's serialized text contains
neither "QTY+21:2'" nor "PRI+AAA:9.99'": the builder emits quantity and
price as separate data elements ("QTY+21+2'") and the serializer escapes the
decimal character ("PRI+AAA+9?.99'"). -/
theorem c7_counterexample :
    (let txt := (((((OrderBuilder.new.with_interchange_header "S" "R" "D"
        "C").with_message_header "1" "ORDERS").with_bgm "220" "123456"
        "9").add_order_line "1" "ITEM1" "2" "9.99").build).to_edifact
     occursIn ("QTY+21:2'".data) txt.data = false
       ∧ occursIn ("PRI+AAA:9.99'".data) txt.data = false) := by decide

/-- C7, amended: the builder scenario's serialized text contains the literal
substrings "UNB+UNOA:4+S+R+D+C+ORDERS'", "BGM+220+123456+9'",
"LIN+1++ITEM1:BP'", "QTY+21+2'" and "PRI+AAA+9?.99'". -/
theorem c7_amended :
    (let txt := (((((OrderBuilder.new.with_interchange_header "S" "R" "D"
        "C").with_message_header "1" "ORDERS").with_bgm "220" "123456"
        "9").add_order_line "1" "ITEM1" "2" "9.99").build).to_edifact
     occursIn ("UNB+UNOA:4+S+R+D+C+ORDERS'".data) txt.data = true
       ∧ occursIn ("BGM+220+123456+9'".data) txt.data = true
       ∧ occursIn ("LIN+1++ITEM1:BP'".data) txt.data = true
       ∧ occursIn ("QTY+21+2'".data) txt.data = true
       ∧ occursIn ("PRI+AAA+9?.99'".data) txt.data = true) := by decide

/-- C8: whenever document parsing succeeds, each header slot holds the last
tokenized segment of its tag (in line order) — stated under the claim's
"two or more such lines" hypothesis — and no `UNB`/`UNH` segment is appended
to the body. -/
theorem c8_confirmed (content : String) (o : Order)
    (h : Order.from_edifact content = .ok o) :
    (2 ≤ ((segmentsOfLines o.parser (rustLines content.data) 0).filter
        (fun s => s.tag == "UNB")).length →
      o.interchange_header
        = ((segmentsOfLines o.parser (rustLines content.data) 0).filter
            (fun s => s.tag == "UNB")).getLast?)
    ∧ (2 ≤ ((segmentsOfLines o.parser (rustLines content.data) 0).filter
        (fun s => s.tag == "UNH")).length →
      o.message_header
        = ((segmentsOfLines o.parser (rustLines content.data) 0).filter
            (fun s => s.tag == "UNH")).getLast?)
    ∧ (∀ s ∈ o.segments, s.tag ≠ "UNB" ∧ s.tag ≠ "UNH") := by
  rw [from_edifact_eq, processLines_spec] at h
  injection h with h2
  subst h2
  refine ⟨fun _ => optOr_none _, fun _ => optOr_none _, ?_⟩
  intro s hs
  have := (List.mem_filter.mp hs).2
  simpa using this

theorem c8_witness :
    some (Segment.mk "UNB" [["2"]] 1)
      = ((segmentsOfLines
            (Order.mk [] (some (Segment.mk "UNB" [["2"]] 1))
              (some (Segment.mk "UNH" [["4"]] 3)) Parser.new).parser
            (rustLines ("UNB+1'\nUNB+2'\nUNH+3'\nUNH+4'").data) 0).filter
          (fun s => s.tag == "UNB")).getLast? := by
  have h := c8_confirmed "UNB+1'\nUNB+2'\nUNH+3'\nUNH+4'"
    (Order.mk [] (some (Segment.mk "UNB" [["2"]] 1))
      (some (Segment.mk "UNH" [["4"]] 3)) Parser.new) (by rfl)
  exact h.1 (by decide)

/-- C9: the line-group scan emits exactly one group per `LIN` segment, in
document order (the groups' `LIN` segments are the body's `LIN` segments);
attachment overwrites the matching slot of the open group; and on the
claim's seven-segment body it returns exactly the two stated groups. -/
theorem c9_confirmed (o : Order) (l : OrderLine) (s : Segment) :
    (o.get_order_lines.map OrderLine.line_segment
      = o.segments.filter (fun t => t.tag == "LIN"))
    ∧ (s.tag = "IMD" → (l.add_segment s).description = some s)
    ∧ (s.tag = "QTY" → (l.add_segment s).quantity = some s)
    ∧ (s.tag = "MOA" → (l.add_segment s).amount = some s)
    ∧ (s.tag = "PRI" → (l.add_segment s).price = some s)
    ∧ (s.tag = "RFF" → (l.add_segment s).reference = some s)
    ∧ ((Order.mk
          [Segment.mk "LIN" [["1"]] 0, Segment.mk "QTY" [["21", "2"]] 1,
           Segment.mk "MOA" [["203", "200.00"]] 2,
           Segment.mk "PRI" [["AAA", "100.00"]] 3,
           Segment.mk "RFF" [["LI", "1"]] 4, Segment.mk "LIN" [["2"]] 5,
           Segment.mk "QTY" [["21", "1"]] 6] none none Parser.new).get_order_lines
        = [OrderLine.mk (Segment.mk "LIN" [["1"]] 0) none
             (some (Segment.mk "QTY" [["21", "2"]] 1))
             (some (Segment.mk "MOA" [["203", "200.00"]] 2))
             (some (Segment.mk "PRI" [["AAA", "100.00"]] 3))
             (some (Segment.mk "RFF" [["LI", "1"]] 4)),
           OrderLine.mk (Segment.mk "LIN" [["2"]] 5) none
             (some (Segment.mk "QTY" [["21", "1"]] 6)) none none none]) := by
  refine ⟨?_, ?_, ?_, ?_, ?_, ?_, by decide⟩
  · rw [Order.get_order_lines, orderLinesLoop_map]
    rfl
  · intro h
    unfold OrderLine.add_segment
    rw [if_pos h]
  · intro h
    unfold OrderLine.add_segment
    rw [h, if_neg (by decide), if_pos rfl]
  · intro h
    unfold OrderLine.add_segment
    rw [h, if_neg (by decide), if_neg (by decide), if_pos rfl]
  · intro h
    unfold OrderLine.add_segment
    rw [h, if_neg (by decide), if_neg (by decide), if_neg (by decide), if_pos rfl]
  · intro h
    unfold OrderLine.add_segment
    rw [h, if_neg (by decide), if_neg (by decide), if_neg (by decide),
      if_neg (by decide), if_pos rfl]

theorem c9_witness :
    ((Order.mk [Segment.mk "LIN" [["1"]] 0, Segment.mk "QTY" [["21", "2"]] 1]
        none none Parser.new).get_order_lines.map OrderLine.line_segment
      = (Order.mk [Segment.mk "LIN" [["1"]] 0, Segment.mk "QTY" [["21", "2"]] 1]
          none none Parser.new).segments.filter (fun t => t.tag == "LIN"))
    ∧ ((OrderLine.new (Segment.mk "LIN" [["1"]] 0)).add_segment
        (Segment.mk "QTY" [["9"]] 5)).quantity = some (Segment.mk "QTY" [["9"]] 5) := by
  have h := c9_confirmed
    (Order.mk [Segment.mk "LIN" [["1"]] 0, Segment.mk "QTY" [["21", "2"]] 1]
      none none Parser.new)
    (OrderLine.new (Segment.mk "LIN" [["1"]] 0)) (Segment.mk "QTY" [["9"]] 5)
  exact ⟨h.1, h.2.2.1 rfl⟩

/-- C10: `parse_segment` is total — for every parser (any delimiter
configuration), input string and position it returns a segment and never an
error — and, in the normal state, the end-of-input branch closes pending
component and element exactly as the segment-terminator branch does. -/
theorem c10_confirmed :
    (∀ (p : Parser) (s : String) (pos : Nat), ∃ seg, p.parse_segment s pos = .ok seg)
    ∧ (∀ (curEl : List (List Char)) (curComp : List Char)
        (els : List (List (List Char))),
        parseBody Delimiters.default [] false false curEl curComp els
          = parseBody Delimiters.default [Delimiters.default.segment] false false
              curEl curComp els) := by
  constructor
  · intro p s pos
    exact ⟨_, rfl⟩
  · intro curEl curComp els
    rw [step_term _ _ _ _ _ (by decide) (by decide) (by decide)]
    by_cases hc : curComp = [] <;> by_cases he : curEl = [] <;>
      simp [parseBody, hc, he]

end Edifact
